import Mathlib

/-!
Verification of the `ed25519_to_curve25519` library.

The crate exposes three conversion functions in `src/lib.rs`:
`ed25519_pk_to_curve25519`, `ed25519_sk_to_curve25519` and
`ed25519_sign_to_curve25519`.  Byte strings are embedded as `List Nat`
(each entry one octet).  The crate's `field` and `sha512` modules are not
part of the published sources, so their operations are modelled from the
specification (section 4.1 and 4.2), at the level of residue classes
modulo p = 2^255 - 19 for the field and of FIPS 180-4 for SHA-512.
-/

namespace EdToCurve

/-- Little-endian value of a byte string: byte 0 is least significant. -/
def leNat : List Nat → Nat
  | [] => 0
  | b :: rest => b + 256 * leNat rest

/-- The `k` little-endian bytes of `v` (each reduced modulo 256). -/
def leBytesN : Nat → Nat → List Nat
  | 0, _ => []
  | k + 1, v => v % 256 :: leBytesN k (v / 256)

namespace FieldElement

/-- The field prime p = 2^255 - 19. -/
def p : Nat := 2 ^ 255 - 19

/-- Modelled from the spec: the crate's `field` / `field_element_2625`
modules are not under the published sources.  `from_bytes` "interprets the
32 bytes as a little-endian 256-bit integer, ignores the most significant
bit of byte 31"; the decoded value is the residue of that 255-bit integer
modulo p.  Field elements are modelled as their canonical representatives
in `[0, p)`. -/
def from_bytes (b : List Nat) : Nat :=
  (leNat b % 2 ^ 255) % p

/-- Modelled from the spec: `to_bytes` "perform[s] a final conditional
subtraction of p to produce the canonical representative in [0, p); then
pack[s] the limbs into 32 little-endian bytes". -/
def to_bytes (x : Nat) : List Nat :=
  leBytesN 32 (x % p)

/-- Modelled from the spec: the constructor `one()`. -/
def one : Nat := 1

/-- Modelled from the spec: field addition (componentwise on limbs, i.e.
addition of residues modulo p). -/
def add (x y : Nat) : Nat := (x + y) % p

/-- Modelled from the spec: field subtraction of residues modulo p. -/
def sub (x y : Nat) : Nat := (x + (p - y % p)) % p

/-- Modelled from the spec: field multiplication of residues modulo p. -/
def mul (x y : Nat) : Nat := (x * y) % p

/-- Modelled from the spec: squaring, which "must agree with
multiplication on all inputs". -/
def square (x : Nat) : Nat := (x * x) % p

/-- `k` successive squarings (the `pow2k` step of the inversion chain). -/
def pow2k : Nat → Nat → Nat
  | x, 0 => x % p
  | x, k + 1 => pow2k (square x) k

/-- Modelled from the spec: inversion "computes x^(p−2) mod p via the
standard fixed 254-step addition chain for Curve25519 (11 multiplications
and 254 squarings)": z^2, z^9, z^11, z^(2^5−1), z^(2^10−1), z^(2^20−1),
z^(2^40−1), z^(2^50−1), z^(2^100−1), z^(2^200−1), z^(2^250−1), then
z^(2^255−21). -/
def invert (z : Nat) : Nat :=
  let z2 := square z
  let z8 := square (square z2)
  let z9 := mul z z8
  let z11 := mul z2 z9
  let z22 := square z11
  let z5 := mul z9 z22
  let z10 := mul (pow2k z5 5) z5
  let z20 := mul (pow2k z10 10) z10
  let z40 := mul (pow2k z20 20) z20
  let z50 := mul (pow2k z40 10) z10
  let z100 := mul (pow2k z50 50) z50
  let z200 := mul (pow2k z100 100) z100
  let z250 := mul (pow2k z200 50) z50
  mul (pow2k z250 5) z11

end FieldElement

namespace Sha512

/-- Big-endian bytes: most significant octet first. -/
def beBytes (k v : Nat) : List Nat := (leBytesN k v).reverse

/-- 64-bit rotate right by `n`. -/
def rotr (n w : Nat) : Nat := ((w >>> n) ||| (w <<< (64 - n))) % 2 ^ 64

/-- Modelled from the spec: the crate's `sha512` module is not under the
published sources; FIPS 180-4 big sigma-0. -/
def bsig0 (x : Nat) : Nat := rotr 28 x ^^^ rotr 34 x ^^^ rotr 39 x

/-- Modelled from the spec: FIPS 180-4 big sigma-1. -/
def bsig1 (x : Nat) : Nat := rotr 14 x ^^^ rotr 18 x ^^^ rotr 41 x

/-- Modelled from the spec: FIPS 180-4 small sigma-0. -/
def ssig0 (x : Nat) : Nat := rotr 1 x ^^^ rotr 8 x ^^^ (x >>> 7)

/-- Modelled from the spec: FIPS 180-4 small sigma-1. -/
def ssig1 (x : Nat) : Nat := rotr 19 x ^^^ rotr 61 x ^^^ (x >>> 6)

/-- Modelled from the spec: FIPS 180-4 choice function. -/
def ch (x y z : Nat) : Nat := (x &&& y) ^^^ ((x ^^^ (2 ^ 64 - 1)) &&& z)

/-- Modelled from the spec: FIPS 180-4 majority function. -/
def maj (x y z : Nat) : Nat := (x &&& y) ^^^ (x &&& z) ^^^ (y &&& z)

/-- Modelled from the spec: the FIPS 180-4 round constants K[0..80],
written in decimal. -/
def K : List Nat := [
  4794697086780616226, 8158064640168781261, 13096744586834688815,
  16840607885511220156, 4131703408338449720, 6480981068601479193,
  10538285296894168987, 12329834152419229976, 15566598209576043074,
  1334009975649890238, 2608012711638119052, 6128411473006802146,
  8268148722764581231, 9286055187155687089, 11230858885718282805,
  13951009754708518548, 16472876342353939154, 17275323862435702243,
  1135362057144423861, 2597628984639134821, 3308224258029322869,
  5365058923640841347, 6679025012923562964, 8573033837759648693,
  10970295158949994411, 12119686244451234320, 12683024718118986047,
  13788192230050041572, 14330467153632333762, 15395433587784984357,
  489312712824947311, 1452737877330783856, 2861767655752347644,
  3322285676063803686, 5560940570517711597, 5996557281743188959,
  7280758554555802590, 8532644243296465576, 9350256976987008742,
  10552545826968843579, 11727347734174303076, 12113106623233404929,
  14000437183269869457, 14369950271660146224, 15101387698204529176,
  15463397548674623760, 17586052441742319658, 1182934255886127544,
  1847814050463011016, 2177327727835720531, 2830643537854262169,
  3796741975233480872, 4115178125766777443, 5681478168544905931,
  6601373596472566643, 7507060721942968483, 8399075790359081724,
  8693463985226723168, 9568029438360202098, 10144078919501101548,
  10430055236837252648, 11840083180663258601, 13761210420658862357,
  14299343276471374635, 14566680578165727644, 15097957966210449927,
  16922976911328602910, 17689382322260857208, 500013540394364858,
  748580250866718886, 1242879168328830382, 1977374033974150939,
  2944078676154940804, 3659926193048069267, 4368137639120453308,
  4836135668995329356, 5532061633213252278, 6448918945643986474,
  6902733635092675308, 7801388544844847127]

/-- The eight 64-bit chaining variables of SHA-512. -/
structure State where
  a : Nat
  b : Nat
  c : Nat
  d : Nat
  e : Nat
  f : Nat
  g : Nat
  h : Nat

/-- Modelled from the spec: the standard SHA-512 initial chaining
values, written in decimal. -/
def initState : State :=
  ⟨7640891576956012808, 13503953896175478587, 4354685564936845355,
   11912009170470909681, 5840696475078001361, 11170449401992604703,
   2270897969802886507, 6620516959819538809⟩

/-- Group a byte string into 64-bit big-endian words. -/
def wordsBE : List Nat → List Nat
  | b0 :: b1 :: b2 :: b3 :: b4 :: b5 :: b6 :: b7 :: rest =>
      (((((((b0 * 256 + b1) * 256 + b2) * 256 + b3) * 256 + b4) * 256 + b5) * 256
          + b6) * 256 + b7) :: wordsBE rest
  | _ => []

/-- Extend the 16 block words by `k` further schedule words
`W[t] = sigma1(W[t-2]) + W[t-7] + sigma0(W[t-15]) + W[t-16] mod 2^64`. -/
def extendW : List Nat → Nat → List Nat
  | ws, 0 => ws
  | ws, k + 1 =>
      let n := ws.length
      extendW (ws ++ [(ssig1 (ws.getD (n - 2) 0) + ws.getD (n - 7) 0
        + ssig0 (ws.getD (n - 15) 0) + ws.getD (n - 16) 0) % 2 ^ 64]) k

/-- One of the 80 compression rounds, consuming a pair (K[t], W[t]). -/
def roundStep (st : State) (kw : Nat × Nat) : State :=
  let t1 := (st.h + bsig1 st.e + ch st.e st.f st.g + kw.1 + kw.2) % 2 ^ 64
  let t2 := (bsig0 st.a + maj st.a st.b st.c) % 2 ^ 64
  ⟨(t1 + t2) % 2 ^ 64, st.a, st.b, st.c, (st.d + t1) % 2 ^ 64, st.e, st.f, st.g⟩

/-- Modelled from the spec: the 80-round compression of one 128-byte
block, followed by addition into the chaining value. -/
def compress (st : State) (block : List Nat) : State :=
  let ws := extendW (wordsBE block) 64
  let r := (K.zip ws).foldl roundStep st
  ⟨(st.a + r.a) % 2 ^ 64, (st.b + r.b) % 2 ^ 64, (st.c + r.c) % 2 ^ 64,
   (st.d + r.d) % 2 ^ 64, (st.e + r.e) % 2 ^ 64, (st.f + r.f) % 2 ^ 64,
   (st.g + r.g) % 2 ^ 64, (st.h + r.h) % 2 ^ 64⟩

/-- Modelled from the spec: "padding with a 0x80 byte followed by zeroes
and a 128-bit big-endian length in bits". -/
def pad (msg : List Nat) : List Nat :=
  msg ++ 0x80 :: (List.replicate ((128 - (msg.length + 17) % 128) % 128) 0
    ++ beBytes 16 (8 * msg.length))

/-- Split a byte string into 128-byte blocks (the first argument is fuel,
always called with the length of the string). -/
def chunks : Nat → List Nat → List (List Nat)
  | 0, _ => []
  | fuel + 1, msg =>
      if msg.length < 128 then [] else msg.take 128 :: chunks fuel (msg.drop 128)

/-- Modelled from the spec: the full SHA-512 hash of a byte string, a
"pure function mapping an input byte string of any length to a 64-byte
digest" per FIPS 180-4. -/
def sha512 (msg : List Nat) : List Nat :=
  let padded := pad msg
  let st := (chunks padded.length padded).foldl compress initState
  beBytes 8 st.a ++ beBytes 8 st.b ++ beBytes 8 st.c ++ beBytes 8 st.d
    ++ beBytes 8 st.e ++ beBytes 8 st.f ++ beBytes 8 st.g ++ beBytes 8 st.h

end Sha512

/-- `ed25519_pk_to_curve25519` from `src/lib.rs`: decode the Edwards
y-coordinate, form `one_minus_y = 1 - y`, invert it, form `x = 1 + y`,
multiply, and encode the result. -/
def ed25519_pk_to_curve25519 (pk : List Nat) : List Nat :=
  let AY := FieldElement.from_bytes pk
  let one_minus_y := FieldElement.sub FieldElement.one AY
  let one_minus_y2 := FieldElement.invert one_minus_y
  let x := FieldElement.add FieldElement.one AY
  let x2 := FieldElement.mul x one_minus_y2
  FieldElement.to_bytes x2

/-- `ed25519_sk_to_curve25519` from `src/lib.rs`: hash the seed with
SHA-512, clamp bytes 0 and 31 of the digest (`h[0] &= 248`,
`h[31] &= 127`, `h[31] |= 64`), and return the first 32 bytes. -/
def ed25519_sk_to_curve25519 (sk : List Nat) : List Nat :=
  let h0 := Sha512.sha512 sk
  let h1 := h0.set 0 (h0.getD 0 0 &&& 248)
  let h2 := h1.set 31 ((h1.getD 31 0 &&& 127) ||| 64)
  h2.take 32

/-- `ed25519_sign_to_curve25519` from `src/lib.rs`: copy the signature
and OR the sign bit of `pk[31]` into byte 63. -/
def ed25519_sign_to_curve25519 (pk sign : List Nat) : List Nat :=
  let sign_bit := pk.getD 31 0 &&& 0x80
  sign.set 63 (sign.getD 63 0 ||| sign_bit)

/-- The specification's formula for public-key conversion, stated with
the mathematical inverse x^(p-2) mod p of Fermat's little theorem: "let
y = FieldElement.from_bytes(pk). Compute u = (1 + y) · (1 − y)^(−1) in
F_p. Return u.to_bytes()." -/
def pk_to_curve25519_formula (pk : List Nat) : List Nat :=
  let y := FieldElement.from_bytes pk
  FieldElement.to_bytes
    (FieldElement.mul (FieldElement.add FieldElement.one y)
      (FieldElement.sub FieldElement.one y ^ (FieldElement.p - 2) % FieldElement.p))

namespace FieldElement

theorem p_pos : 0 < p := by norm_num [p]

theorem pow2k_eq (k : Nat) : ∀ x, pow2k x k = x ^ 2 ^ k % p := by
  induction k with
  | zero => intro x; simp [pow2k]
  | succ k ih =>
      intro x
      show pow2k (square x) k = x ^ 2 ^ (k + 1) % p
      rw [ih, square, ← Nat.pow_mod, ← pow_two, ← pow_mul, ← pow_succ']

theorem square_pow (x a : Nat) : square (x ^ a % p) = x ^ (2 * a) % p := by
  rw [square, Nat.mod_mul_mod, Nat.mul_mod_mod, ← pow_add, two_mul]

theorem mul_pow_pow (x a b : Nat) : mul (x ^ a % p) (x ^ b % p) = x ^ (a + b) % p := by
  rw [mul, Nat.mod_mul_mod, Nat.mul_mod_mod, ← pow_add]

theorem mul_base_pow (x a : Nat) : mul x (x ^ a % p) = x ^ (a + 1) % p := by
  rw [mul, Nat.mul_mod_mod, ← pow_succ']

theorem pow2k_pow (x a k : Nat) : pow2k (x ^ a % p) k = x ^ (a * 2 ^ k) % p := by
  rw [pow2k_eq, ← Nat.pow_mod, ← pow_mul]

/-- The fixed inversion chain raises its argument to the power
p - 2 = 2^255 - 21 modulo p. -/
theorem invert_eq_pow (z : Nat) : invert z = z ^ (2 ^ 255 - 21) % p := by
  have e2 : square z = z ^ 2 % p := by rw [square, pow_two]
  simp only [invert, e2, square_pow, pow2k_pow, mul_pow_pow, mul_base_pow]
  norm_num

end FieldElement

theorem leBytesN_length : ∀ k v, (leBytesN k v).length = k
  | 0, _ => rfl
  | k + 1, v => by simp [leBytesN, leBytesN_length k]

theorem leBytesN_getD : ∀ k i v, i < k → (leBytesN k v).getD i 0 = v / 256 ^ i % 256
  | _ + 1, 0, _, _ => by simp [leBytesN]
  | k + 1, i + 1, v, h => by
      simp only [leBytesN, List.getD_cons_succ]
      rw [leBytesN_getD k i (v / 256) (by omega), Nat.div_div_eq_div_mul, ← pow_succ']

theorem leNat_append : ∀ l1 l2 : List Nat,
    leNat (l1 ++ l2) = leNat l1 + 256 ^ l1.length * leNat l2
  | [], l2 => by simp [leNat]
  | b :: l1, l2 => by
      show b + 256 * leNat (l1 ++ l2) =
        b + 256 * leNat l1 + 256 ^ (l1.length + 1) * leNat l2
      rw [leNat_append l1 l2, pow_succ]
      ring

theorem leBytesN_leNat : ∀ l : List Nat, (∀ x ∈ l, x < 256) →
    leBytesN l.length (leNat l) = l
  | [], _ => rfl
  | x :: rest, h => by
      have hx : x < 256 := h x (by simp)
      have hrest : ∀ y ∈ rest, y < 256 := fun y hy => h y (by simp [hy])
      simp only [List.length_cons, leBytesN, leNat]
      congr 1
      · rw [Nat.add_mul_mod_self_left, Nat.mod_eq_of_lt hx]
      · rw [Nat.add_mul_div_left _ _ (by norm_num), Nat.div_eq_of_lt hx, Nat.zero_add]
        exact leBytesN_leNat rest hrest

theorem getD_set_ne (l : List Nat) (i j a d : Nat) (hij : i ≠ j) :
    (l.set i a).getD j d = l.getD j d := by
  simp [List.getD_eq_getElem?_getD, List.getElem?_set_ne hij]

theorem getD_set_self (l : List Nat) (i a d : Nat) (hi : i < l.length) :
    (l.set i a).getD i d = a := by
  simp [List.getD_eq_getElem?_getD, List.getElem?_set_eq_of_lt a hi]

theorem getD_take (l : List Nat) (i n d : Nat) (hin : i < n) :
    (l.take n).getD i d = l.getD i d := by
  simp [List.getD_eq_getElem?_getD, List.getElem?_take, hin]

theorem take_set_eq (l : List Nat) (a n : Nat) : (l.set n a).take n = l.take n := by
  apply List.ext_getElem?
  intro i
  by_cases hi : i < n
  · simp [List.getElem?_take, hi, List.getElem?_set_ne (by omega : n ≠ i)]
  · simp [List.getElem?_take, hi]

theorem sha512_length (msg : List Nat) : (Sha512.sha512 msg).length = 64 := by
  simp [Sha512.sha512, Sha512.beBytes, leBytesN_length]

theorem and_128_eq_zero : ∀ y, y < 128 → y &&& 128 = 0 := by decide

theorem and_127_eq_mod (b : Nat) : b &&& 127 = b % 128 := by
  have := Nat.and_pow_two_sub_one_eq_mod b 7
  norm_num at this
  exact this

theorem clamp_hi_bits : ∀ w, w ≤ 127 →
    (w ||| 64) &&& 128 = 0 ∧ (w ||| 64) &&& 64 = 64 := by decide

/-- Any encoded field element has its most significant bit clear. -/
theorem to_bytes_getD_31_lt (x : Nat) : (FieldElement.to_bytes x).getD 31 0 < 128 := by
  rw [FieldElement.to_bytes, leBytesN_getD 32 31 _ (by norm_num)]
  have hv : x % FieldElement.p < FieldElement.p := Nat.mod_lt _ FieldElement.p_pos
  have hdiv : x % FieldElement.p / 256 ^ 31 < 128 := by
    apply Nat.div_lt_of_lt_mul
    calc x % FieldElement.p < FieldElement.p := hv
    _ ≤ 256 ^ 31 * 128 := by norm_num [FieldElement.p]
  omega

/-- Clearing the high bit of byte 31 does not change the decoded field
element: `from_bytes` already discards that bit. -/
theorem from_bytes_set31 (pk : List Nat) (h : pk.length = 32) :
    FieldElement.from_bytes (pk.set 31 (pk.getD 31 0 &&& 0x7F)) =
      FieldElement.from_bytes pk := by
  have hmask : pk.getD 31 0 &&& 0x7F = pk.getD 31 0 % 128 :=
    and_127_eq_mod (pk.getD 31 0)
  have hset : pk.set 31 (pk.getD 31 0 &&& 0x7F) =
      pk.take 31 ++ [pk.getD 31 0 % 128] := by
    rw [List.set_eq_take_append_cons_drop, if_pos (by omega), hmask,
      List.drop_eq_nil_of_le (by omega)]
  have hpk : pk = pk.take 31 ++ [pk.getD 31 0] := by
    conv_lhs => rw [← List.take_append_drop 31 pk]
    congr 1
    rw [List.drop_eq_getElem_cons (by omega), List.drop_eq_nil_of_le (by omega),
      List.getD_eq_getElem pk 0 (by omega)]
  have hlen31 : (pk.take 31).length = 31 := by simp [h]
  have key : ∀ A q r : Nat, (A + 256 ^ 31 * (128 * q + r)) % 2 ^ 255 =
      (A + 256 ^ 31 * r) % 2 ^ 255 := by
    intro A q r
    have h1 : A + 256 ^ 31 * (128 * q + r) = A + 256 ^ 31 * r + 2 ^ 255 * q := by
      have hsplit : (256 : Nat) ^ 31 * 128 = 2 ^ 255 := by norm_num
      calc A + 256 ^ 31 * (128 * q + r)
          = A + 256 ^ 31 * r + 256 ^ 31 * 128 * q := by ring
      _ = A + 256 ^ 31 * r + 2 ^ 255 * q := by rw [hsplit]
    rw [h1, Nat.add_mul_mod_self_left]
  rw [FieldElement.from_bytes, FieldElement.from_bytes, hset]
  conv_rhs => rw [hpk]
  rw [leNat_append, leNat_append, hlen31]
  congr 1
  have hone : ∀ b : Nat, leNat [b] = b := by intro b; simp [leNat]
  rw [hone, hone]
  conv_rhs => rw [← Nat.div_add_mod (pk.getD 31 0) 128]
  rw [key]

/-- C1: For every 32-byte input pk, ed25519_pk_to_curve25519(pk) returns
to_bytes of (1 + y) · (1 − y)^(−1) computed in F_p with p = 2^255 − 19
(the inverse being x^(p−2) mod p, which the fixed addition chain
computes), where y = FieldElement.from_bytes(pk). -/
theorem pk_conversion_follows_spec_formula (pk : List Nat) (_h : pk.length = 32) :
    ed25519_pk_to_curve25519 pk = pk_to_curve25519_formula pk := by
  have hp : FieldElement.p - 2 = 2 ^ 255 - 21 := by norm_num [FieldElement.p]
  simp only [ed25519_pk_to_curve25519, pk_to_curve25519_formula,
    FieldElement.invert_eq_pow, hp]

theorem pk_conversion_follows_spec_formula_witness :
    (List.replicate 32 0 : List Nat).length = 32 ∧
      ed25519_pk_to_curve25519 (List.replicate 32 0) =
        pk_to_curve25519_formula (List.replicate 32 0) :=
  ⟨by decide, pk_conversion_follows_spec_formula (List.replicate 32 0) (by decide)⟩

/-- C2: For every 32-byte input sk, ed25519_sk_to_curve25519(sk) returns
the first 32 bytes of h = SHA-512(sk) after clamping: h[0] &&& 0xF8 and
h[31] &&& 0x7F ||| 0x40. -/
theorem sk_conversion_hash_then_clamp (sk : List Nat) (_h : sk.length = 32) :
    ed25519_sk_to_curve25519 sk =
      (((Sha512.sha512 sk).set 0 ((Sha512.sha512 sk).getD 0 0 &&& 0xF8)).set 31
        ((Sha512.sha512 sk).getD 31 0 &&& 0x7F ||| 0x40)).take 32 := by
  simp only [ed25519_sk_to_curve25519]
  rw [getD_set_ne _ 0 31 _ _ (by omega)]

theorem sk_conversion_hash_then_clamp_witness :
    (List.replicate 32 0 : List Nat).length = 32 ∧
      ed25519_sk_to_curve25519 (List.replicate 32 0) =
        (((Sha512.sha512 (List.replicate 32 0)).set 0
            ((Sha512.sha512 (List.replicate 32 0)).getD 0 0 &&& 0xF8)).set 31
          ((Sha512.sha512 (List.replicate 32 0)).getD 31 0 &&& 0x7F ||| 0x40)).take 32 :=
  ⟨by decide, sk_conversion_hash_then_clamp (List.replicate 32 0) (by decide)⟩

/-- C3: For every 32-byte pk and 64-byte sig, the converted signature has
64 bytes, agrees with sig on the first 63 bytes, and its byte 63 is
sig[63] ||| (pk[31] &&& 0x80). -/
theorem sign_conversion_copies_and_sets_bit (pk sig : List Nat)
    (_h1 : pk.length = 32) (h2 : sig.length = 64) :
    (ed25519_sign_to_curve25519 pk sig).length = 64 ∧
      (ed25519_sign_to_curve25519 pk sig).take 63 = sig.take 63 ∧
      (ed25519_sign_to_curve25519 pk sig).getD 63 0 =
        (sig.getD 63 0 ||| (pk.getD 31 0 &&& 0x80)) := by
  refine ⟨?_, ?_, ?_⟩
  · simp [ed25519_sign_to_curve25519, h2]
  · simp only [ed25519_sign_to_curve25519]
    exact take_set_eq sig _ 63
  · simp only [ed25519_sign_to_curve25519]
    exact getD_set_self sig 63 _ 0 (by omega)

theorem sign_conversion_copies_and_sets_bit_witness :
    (List.replicate 32 0 : List Nat).length = 32 ∧
      (List.replicate 64 0 : List Nat).length = 64 ∧
      ((ed25519_sign_to_curve25519 (List.replicate 32 0) (List.replicate 64 0)).length = 64 ∧
        (ed25519_sign_to_curve25519 (List.replicate 32 0) (List.replicate 64 0)).take 63 =
          (List.replicate 64 0 : List Nat).take 63 ∧
        (ed25519_sign_to_curve25519 (List.replicate 32 0) (List.replicate 64 0)).getD 63 0 =
          ((List.replicate 64 0 : List Nat).getD 63 0 |||
            ((List.replicate 32 0 : List Nat).getD 31 0 &&& 0x80))) :=
  ⟨by decide, by decide,
    sign_conversion_copies_and_sets_bit (List.replicate 32 0) (List.replicate 64 0)
      (by decide) (by decide)⟩

/-- C4 counterexample: the canonical little-endian encoding of p itself
has 32 bytes and a clear top bit, yet it decodes to zero, so from_bytes
followed by to_bytes returns the all-zero string instead of the input. -/
theorem from_bytes_to_bytes_roundtrip_cex :
    (237 :: List.replicate 30 255 ++ [127] : List Nat).length = 32 ∧
      (∀ x ∈ (237 :: List.replicate 30 255 ++ [127] : List Nat), x < 256) ∧
      (237 :: List.replicate 30 255 ++ [127] : List Nat).getD 31 0 &&& 0x80 = 0 ∧
      FieldElement.to_bytes (FieldElement.from_bytes
        (237 :: List.replicate 30 255 ++ [127])) ≠
        237 :: List.replicate 30 255 ++ [127] := by decide

/-- C4 (amended): for every 32-byte string b with all entries below 256,
top bit of byte 31 clear, and little-endian value below p, from_bytes
followed by to_bytes yields b exactly. -/
theorem from_bytes_to_bytes_roundtrip (b : List Nat) (hlen : b.length = 32)
    (hbytes : ∀ x ∈ b, x < 256) (_hbit : b.getD 31 0 &&& 0x80 = 0)
    (hlt : leNat b < FieldElement.p) :
    FieldElement.to_bytes (FieldElement.from_bytes b) = b := by
  rw [FieldElement.from_bytes, FieldElement.to_bytes]
  have h255 : leNat b < 2 ^ 255 := lt_trans hlt (by norm_num [FieldElement.p])
  rw [Nat.mod_eq_of_lt h255, Nat.mod_eq_of_lt hlt, Nat.mod_eq_of_lt hlt]
  calc leBytesN 32 (leNat b) = leBytesN b.length (leNat b) := by rw [hlen]
  _ = b := leBytesN_leNat b hbytes

theorem from_bytes_to_bytes_roundtrip_witness :
    (1 :: List.replicate 31 0 : List Nat).length = 32 ∧
      (∀ x ∈ (1 :: List.replicate 31 0 : List Nat), x < 256) ∧
      (1 :: List.replicate 31 0 : List Nat).getD 31 0 &&& 0x80 = 0 ∧
      leNat (1 :: List.replicate 31 0) < FieldElement.p ∧
      FieldElement.to_bytes (FieldElement.from_bytes (1 :: List.replicate 31 0)) =
        1 :: List.replicate 31 0 :=
  ⟨by decide, by decide, by decide, by decide,
    from_bytes_to_bytes_roundtrip (1 :: List.replicate 31 0) (by decide) (by decide)
      (by decide) (by decide)⟩

/-- C5: For every 32-byte input sk, the output k of
ed25519_sk_to_curve25519 satisfies k[0] &&& 7 = 0, k[31] &&& 0x80 = 0 and
k[31] &&& 0x40 = 0x40. -/
theorem sk_conversion_output_clamped (sk : List Nat) (_h : sk.length = 32) :
    (ed25519_sk_to_curve25519 sk).getD 0 0 &&& 7 = 0 ∧
      (ed25519_sk_to_curve25519 sk).getD 31 0 &&& 0x80 = 0 ∧
      (ed25519_sk_to_curve25519 sk).getD 31 0 &&& 0x40 = 0x40 := by
  have hlen := sha512_length sk
  simp only [ed25519_sk_to_curve25519]
  set h0 := Sha512.sha512 sk with hh0
  set a := h0.getD 0 0 &&& 248 with ha
  set h1 := h0.set 0 a with hh1
  have hlen1 : h1.length = 64 := by simp [hh1, hlen]
  set v := h1.getD 31 0 &&& 127 ||| 64 with hv
  have g0 : ((h1.set 31 v).take 32).getD 0 0 = a := by
    rw [getD_take _ 0 32 0 (by omega), getD_set_ne _ 31 0 _ _ (by omega), hh1,
      getD_set_self h0 0 a 0 (by omega)]
  have g31 : ((h1.set 31 v).take 32).getD 31 0 = v := by
    rw [getD_take _ 31 32 0 (by omega), getD_set_self h1 31 v 0 (by omega)]
  have hw : h1.getD 31 0 &&& 127 ≤ 127 := Nat.and_le_right
  refine ⟨?_, ?_, ?_⟩
  · rw [g0, ha, Nat.land_assoc]
    have h248 : (248 : Nat) &&& 7 = 0 := by decide
    rw [h248, Nat.and_zero]
  · rw [g31, hv]
    exact (clamp_hi_bits _ hw).1
  · rw [g31, hv]
    exact (clamp_hi_bits _ hw).2

theorem sk_conversion_output_clamped_witness :
    (List.replicate 32 0 : List Nat).length = 32 ∧
      ((ed25519_sk_to_curve25519 (List.replicate 32 0)).getD 0 0 &&& 7 = 0 ∧
        (ed25519_sk_to_curve25519 (List.replicate 32 0)).getD 31 0 &&& 0x80 = 0 ∧
        (ed25519_sk_to_curve25519 (List.replicate 32 0)).getD 31 0 &&& 0x40 = 0x40) :=
  ⟨by decide, sk_conversion_output_clamped (List.replicate 32 0) (by decide)⟩

/-- C6: For every 32-byte input pk, the most significant bit of byte 31
of ed25519_pk_to_curve25519(pk) is 0. -/
theorem pk_conversion_output_high_bit_zero (pk : List Nat) (_h : pk.length = 32) :
    (ed25519_pk_to_curve25519 pk).getD 31 0 &&& 0x80 = 0 := by
  simp only [ed25519_pk_to_curve25519]
  exact and_128_eq_zero _ (to_bytes_getD_31_lt _)

theorem pk_conversion_output_high_bit_zero_witness :
    (List.replicate 32 0 : List Nat).length = 32 ∧
      (ed25519_pk_to_curve25519 (List.replicate 32 0)).getD 31 0 &&& 0x80 = 0 :=
  ⟨by decide, pk_conversion_output_high_bit_zero (List.replicate 32 0) (by decide)⟩

/-- C7: For every 32-byte input pk, the public-key conversion yields the
same output on pk and on pk with the most significant bit of byte 31
cleared: from_bytes discards that bit. -/
theorem pk_conversion_ignores_sign_bit (pk : List Nat) (h : pk.length = 32) :
    ed25519_pk_to_curve25519 pk =
      ed25519_pk_to_curve25519 (pk.set 31 (pk.getD 31 0 &&& 0x7F)) := by
  simp only [ed25519_pk_to_curve25519, from_bytes_set31 pk h]

theorem pk_conversion_ignores_sign_bit_witness :
    (List.replicate 32 0 : List Nat).length = 32 ∧
      ed25519_pk_to_curve25519 (List.replicate 32 0) =
        ed25519_pk_to_curve25519 ((List.replicate 32 0 : List Nat).set 31
          ((List.replicate 32 0 : List Nat).getD 31 0 &&& 0x7F)) :=
  ⟨by decide, pk_conversion_ignores_sign_bit (List.replicate 32 0) (by decide)⟩

set_option maxRecDepth 4000 in
/-- C8: On the 32-byte encoding of y = 1 (byte 0 equal to 1, all others
0, the Edwards identity), ed25519_pk_to_curve25519 returns the all-zero
32-byte string: the inversion chain maps zero to zero. -/
theorem pk_conversion_identity_yields_zero :
    ed25519_pk_to_curve25519 (1 :: List.replicate 31 0) = List.replicate 32 0 := by
  decide

/-- C9: Applying the signature conversion twice with the same public key
equals applying it once. -/
theorem sign_conversion_idempotent (pk sig : List Nat)
    (_h1 : pk.length = 32) (h2 : sig.length = 64) :
    ed25519_sign_to_curve25519 pk (ed25519_sign_to_curve25519 pk sig) =
      ed25519_sign_to_curve25519 pk sig := by
  simp only [ed25519_sign_to_curve25519]
  rw [getD_set_self sig 63 _ 0 (by omega), List.set_set, Nat.lor_assoc, Nat.or_self]

theorem sign_conversion_idempotent_witness :
    (List.replicate 32 0 : List Nat).length = 32 ∧
      (List.replicate 64 0 : List Nat).length = 64 ∧
      ed25519_sign_to_curve25519 (List.replicate 32 0)
          (ed25519_sign_to_curve25519 (List.replicate 32 0) (List.replicate 64 0)) =
        ed25519_sign_to_curve25519 (List.replicate 32 0) (List.replicate 64 0) :=
  ⟨by decide, by decide,
    sign_conversion_idempotent (List.replicate 32 0) (List.replicate 64 0)
      (by decide) (by decide)⟩

/-- C10: For 32-byte public keys pk and pk2 agreeing on the most
significant bit of their last byte, and any 64-byte sig, the signature
conversion gives identical outputs: it depends on pk only through
pk[31] &&& 0x80. -/
theorem sign_conversion_depends_only_on_sign_bit (pk pk2 sig : List Nat)
    (_h1 : pk.length = 32) (_h2 : pk2.length = 32) (_h3 : sig.length = 64)
    (hbit : pk.getD 31 0 &&& 0x80 = pk2.getD 31 0 &&& 0x80) :
    ed25519_sign_to_curve25519 pk sig = ed25519_sign_to_curve25519 pk2 sig := by
  simp only [ed25519_sign_to_curve25519, hbit]

theorem sign_conversion_depends_only_on_sign_bit_witness :
    (List.replicate 32 0 : List Nat).length = 32 ∧
      (List.replicate 32 1 : List Nat).length = 32 ∧
      (List.replicate 64 0 : List Nat).length = 64 ∧
      (List.replicate 32 0 : List Nat).getD 31 0 &&& 0x80 =
        (List.replicate 32 1 : List Nat).getD 31 0 &&& 0x80 ∧
      ed25519_sign_to_curve25519 (List.replicate 32 0) (List.replicate 64 0) =
        ed25519_sign_to_curve25519 (List.replicate 32 1) (List.replicate 64 0) :=
  ⟨by decide, by decide, by decide, by decide,
    sign_conversion_depends_only_on_sign_bit (List.replicate 32 0)
      (List.replicate 32 1) (List.replicate 64 0) (by decide) (by decide)
      (by decide) (by decide)⟩

end EdToCurve
